import Mathlib

/-!
Shallow embedding of the tsuru installer orchestrator
(src/tsuru/installer/install.go) and proofs about its machine pool
allocator, apps pool policy, component installer sequencer, host
registrar and configuration resolver.
-/

namespace TsuruInstaller

/-- Dynamic values carried by the installer configuration, modelling the Go
interface values that appear in driver option maps and parsed documents. -/
inductive GoVal where
  | str (s : String)
  | int (n : Int)
  | bool (b : Bool)
  | list (xs : List GoVal)
  | map (kvs : List (GoVal × GoVal))

/-- A provisioned machine as seen by the registrar: its stable name and an
opaque serialized driver descriptor. -/
structure Machine where
  name : String
  driver : String
  deriving Repr, DecidableEq

/-- A flat driver option set handed to the provisioner for one machine
(dm.DriverOpts, a map from option name to value). -/
abbrev DriverOpts (V : Type) := List (String × V)

/-- One observable call against the provisioner capability.  ProvisionMachines
only ever emits provision calls; deleteAll is the rollback operation of the
capability, recorded here so that its absence from every trace is a theorem. -/
inductive PCall (V : Type) where
  | provision (opts : DriverOpts V)
  | deleteAll
  deriving Repr

/-- Result of a provisioning run: the machine list on success, a wrapped error
message when the provisioner fails, or a runtime fault (the Go code computes
i % len(v), which faults when an option value list is empty). -/
inductive Outcome (M : Type) where
  | ok (machines : List M)
  | err (msg : String)
  | fault
  deriving Repr

variable {V M : Type}

/-- The inner loop of ProvisionMachines builds the option set for machine
index i by selecting, for every option key, the value at position
i % len(values).  Returns none exactly when some value list is empty, the
case in which the Go expression i % len(v) faults with a division by zero. -/
def optsFor (configs : List (String × List V)) (i : Nat) : Option (DriverOpts V) :=
  match configs with
  | [] => some []
  | kv :: rest =>
    match kv.2.get? (i % kv.2.length), optsFor rest i with
    | some v, some o => some ((kv.1, v) :: o)
    | _, _ => none

/-- The option set for machine index i, defaulting to the empty set in the
fault case; under the all-lists-nonempty precondition it agrees with optsFor. -/
def oFor (configs : List (String × List V)) (i : Nat) : DriverOpts V :=
  (optsFor configs i).getD []

/-- The loop of ProvisionMachines, started at machine index i with n machines
still to provision.  The provisioner p is modelled as a function of the
invocation index (abstracting its internal state after that many prior calls)
and the option set.  Besides the outcome, the trace of provisioner calls made
is returned. -/
def provisionFrom (p : Nat → DriverOpts V → Except String M)
    (configs : List (String × List V)) : Nat → Nat → Outcome M × List (PCall V)
  | _, 0 => (.ok [], [])
  | i, n + 1 =>
    match optsFor configs i with
    | none => (.fault, [])
    | some o =>
      match p i o with
      | .error e => (.err (String.append ("failed to provision machines: ") e), [.provision o])
      | .ok m =>
        (match (provisionFrom p configs (i + 1) n).1 with
         | .ok ms => .ok (m :: ms)
         | x => x,
         .provision o :: (provisionFrom p configs (i + 1) n).2)

/-- ProvisionMachines from install.go: provisions numMachines machines, one
provisioner call per machine in index order, distributing the per-key option
value lists round-robin.  The count is a Go int; the loop runs for the
non-negative part of it. -/
def ProvisionMachines (p : Nat → DriverOpts V → Except String M) (numMachines : Int)
    (configs : List (String × List V)) : Outcome M × List (PCall V) :=
  provisionFrom p configs 0 numMachines.toNat

/-- Modelled from the spec: the component settings built by NewInstallConfig
from the installation name (the full contents of ComponentsConfig live in a
source file that is not part of the provided sources); represented by the
name it was derived from. -/
structure ComponentsConfig where
  targetName : String
  deriving Repr

/-- Modelled from the spec: NewInstallConfig derives the component settings
from the installation name. -/
def NewInstallConfig (name : String) : ComponentsConfig :=
  { targetName := name }

/-- The fully resolved installation plan (TsuruInstallConfig together with the
fields of its embedded dm.DockerMachineConfig). -/
structure TsuruInstallConfig where
  DriverName : String
  Name : String
  DockerHubMirror : String
  DriverOpts : List (String × GoVal)
  CAPath : String
  CoreHosts : Int
  AppsHosts : Int
  DedicatedAppsHosts : Bool
  CoreDriversOpts : List (String × List GoVal)
  AppsDriversOpts : List (String × List GoVal)
  componentsConfig : ComponentsConfig

/-- Modelled from the spec: the name of the default docker machine driver of
dm.DefaultDockerMachineConfig, a local virtualization driver (the dm package
is not part of the provided sources). -/
def defaultDriverName : String := "virtualbox"

/-- Modelled from the spec: the default installation name of
dm.DefaultDockerMachineConfig. -/
def defaultMachineName : String := "tsuru"

/-- The package level default installation plan defaultTsuruInstallConfig:
one core host, one apps host, non-dedicated, empty per-index driver option
overrides, default driver configuration. -/
def defaultTsuruInstallConfig : TsuruInstallConfig :=
  { DriverName := defaultDriverName
    Name := defaultMachineName
    DockerHubMirror := ""
    DriverOpts := []
    CAPath := ""
    CoreHosts := 1
    AppsHosts := 1
    DedicatedAppsHosts := false
    CoreDriversOpts := []
    AppsDriversOpts := []
    componentsConfig := NewInstallConfig defaultMachineName }

/-- ProvisionPool from install.go: the apps pool policy.  Dedicated plans
always provision AppsHosts fresh machines; otherwise a deficit over the core
machines is provisioned and prepended to them, and when the core machines
already suffice the first AppsHosts of them are reused with no provisioner
call.  A negative AppsHosts reaching the slice expression hosts[:AppsHosts]
faults in Go. -/
def ProvisionPool (p : Nat → DriverOpts GoVal → Except String Machine)
    (config : TsuruInstallConfig) (hosts : List Machine) :
    Outcome Machine × List (PCall GoVal) :=
  if config.DedicatedAppsHosts then
    ProvisionMachines p config.AppsHosts config.AppsDriversOpts
  else if (hosts.length : Int) < config.AppsHosts then
    let r := ProvisionMachines p (config.AppsHosts - (hosts.length : Int)) config.AppsDriversOpts
    (match r.1 with
     | .ok poolMachines => .ok (poolMachines ++ hosts)
     | .err e => .err (String.append ("failed to provision pool hosts: ") e)
     | .fault => .fault,
     r.2)
  else if config.AppsHosts < 0 then (.fault, [])
  else (.ok (hosts.take config.AppsHosts.toNat), [])

/-- A platform component of the fixed catalog: a display name and its install
operation, which receives the cluster handle and the resolved component
settings. -/
structure TsuruComponent (C S : Type) where
  name : String
  install : C → S → Except String Unit

/-- The component installation loop of Install.Run: iterates the catalog in
declared order, invoking each install operation with the cluster handle and
the settings, stopping at the first failure with an error naming the failing
component.  Besides the outcome, the list of component names whose install
operation was invoked is returned. -/
def installComponents {C S : Type} (components : List (TsuruComponent C S))
    (cluster : C) (conf : S) : Except String Unit × List String :=
  match components with
  | [] => (.ok (), [])
  | c :: rest =>
    match c.install cluster conf with
    | .error e =>
      (.error (String.append ("error installing ") (String.append c.name (String.append (": ") e))),
       [c.name])
    | .ok _ =>
      let r := installComponents rest cluster conf
      (r.1, c.name :: r.2)

/-- One assignment machineIndex[m.Name] = m of Install.Run, on the association
list model of the Go map: replace the entry whose key is the machine name if
present, append a new entry otherwise. -/
def insertMachine (idx : List (String × Machine)) (m : Machine) :
    List (String × Machine) :=
  if idx.any (fun kv => kv.1 == m.name) then
    idx.map (fun kv => if kv.1 == m.name then (m.name, m) else kv)
  else
    idx ++ [(m.name, m)]

/-- The machineIndex map of Install.Run, built over the combined machine list
(core machines first, then apps machines) by successive map assignments. -/
def machineIndex (ms : List Machine) : List (String × Machine) :=
  ms.foldl insertMachine []

/-- The uniqueMachines list of Install.Run: the values of the machineIndex
map, one machine per distinct name. -/
def uniqueMachines (core apps : List Machine) : List Machine :=
  (machineIndex (core ++ apps)).map Prod.snd

/-- The host registration request sent by addInstallHosts for one machine:
its name and its serialized driver descriptor. -/
structure HostRecord where
  name : String
  driver : String
  deriving Repr, DecidableEq

/-- The registration request built for one machine. -/
def hostRecordOf (m : Machine) : HostRecord :=
  { name := m.name, driver := m.driver }

/-- addInstallHosts from install.go, modelled as the sequence of registration
requests it submits: exactly one request per machine in the given list. -/
def addInstallHosts (ms : List Machine) : List HostRecord :=
  ms.map hostRecordOf

/-- parseDriverOptsSlice from install.go: requires the options block to be a
map; every string-keyed entry keeps a sequence value as-is (an empty sequence
included) and wraps a scalar value into a single-element list. -/
def parseDriverOptsSlice : GoVal → Except String (List (String × List GoVal))
  | .map kvs =>
    .ok (kvs.filterMap (fun kv =>
      match kv.1 with
      | .str k => some (k, match kv.2 with | .list l => l | v => [v])
      | _ => none))
  | _ => .error ("failed to parse opts")

/-- A parsed configuration document, looked up by the nested key paths of the
tsuru config package. -/
abbrev ConfigDoc := String → Option GoVal

/-- config.GetString: the value at the key when it is a string. -/
def getString (d : ConfigDoc) (k : String) : Option String :=
  match d k with
  | some (.str s) => some s
  | _ => none

/-- config.GetInt: the value at the key when it is an integer. -/
def getInt (d : ConfigDoc) (k : String) : Option Int :=
  match d k with
  | some (.int n) => some n
  | _ => none

/-- config.GetBool: the value at the key when it is a boolean. -/
def getBool (d : ConfigDoc) (k : String) : Option Bool :=
  match d k with
  | some (.bool b) => some b
  | _ => none

/-- Outcome of a parseConfigFile call: the returned plan, an error return, or
a runtime fault (the unchecked type assertion on the driver options block). -/
inductive ParseOut where
  | ok (c : TsuruInstallConfig)
  | err
  | fault

/-- Input of a parseConfigFile call: an empty path, an unreadable document, or
a parsed document. -/
inductive ConfigFile where
  | empty
  | unreadable
  | doc (d : ConfigDoc)

/-- String-keyed entries of a Go map value, as collected by the driver:options
loop of parseConfigFile. -/
def stringKeyed (kvs : List (GoVal × GoVal)) : List (String × GoVal) :=
  kvs.filterMap (fun kv =>
    match kv.1 with
    | .str k => some (k, kv.2)
    | _ => none)

/-- Final step of parseConfigFile: the component settings are rebuilt from the
(possibly overridden) installation name, and the updated shared configuration
is both returned and left as the new state. -/
def parseConfigFinish (c : TsuruInstallConfig) : ParseOut × TsuruInstallConfig :=
  let f := { c with componentsConfig := NewInstallConfig c.Name }
  (.ok f, f)

/-- The hosts:apps:driver:options step of parseConfigFile.  On a parse failure
the Go multiple assignment has already stored the nil result into the shared
configuration before the error return. -/
def parseConfigApps (c : TsuruInstallConfig) (d : ConfigDoc) :
    ParseOut × TsuruInstallConfig :=
  match d ("hosts:apps:driver:options") with
  | some v =>
    match parseDriverOptsSlice v with
    | .error _ => (.err, { c with AppsDriversOpts := [] })
    | .ok o => parseConfigFinish { c with AppsDriversOpts := o }
  | none => parseConfigFinish c

/-- The host count, dedication and hosts:core:driver:options steps of
parseConfigFile. -/
def parseConfigRest (c3 : TsuruInstallConfig) (d : ConfigDoc) :
    ParseOut × TsuruInstallConfig :=
  let c4 := match getString d ("ca-path") with
    | some s => { c3 with CAPath := s }
    | none => c3
  let c5 := match getInt d ("hosts:core:size") with
    | some n => { c4 with CoreHosts := n }
    | none => c4
  let c6 := match getInt d ("hosts:apps:size") with
    | some n => { c5 with AppsHosts := n }
    | none => c5
  let c7 := match getBool d ("hosts:apps:dedicated") with
    | some b => { c6 with DedicatedAppsHosts := b }
    | none => c6
  match d ("hosts:core:driver:options") with
  | some v =>
    match parseDriverOptsSlice v with
    | .error _ => (.err, { c7 with CoreDriversOpts := [] })
    | .ok o => parseConfigApps { c7 with CoreDriversOpts := o } d
  | none => parseConfigApps c7 d

/-- parseConfigFile from install.go.  The Go function aliases the package
level pointer defaultTsuruInstallConfig and assigns recognized keys through
it field by field, so the shared configuration is threaded here explicitly as
state: the first component is the returned result and the second is the value
of the shared configuration after the call. -/
def parseConfigFile (g : TsuruInstallConfig) :
    ConfigFile → ParseOut × TsuruInstallConfig
  | .empty => (.ok g, g)
  | .unreadable => (.err, g)
  | .doc d =>
    let c1 := match getString d ("driver:name") with
      | some s => { g with DriverName := s }
      | none => g
    let c2 := match getString d ("name") with
      | some s => { c1 with Name := s }
      | none => c1
    let c3 := match getString d ("docker-hub-mirror") with
      | some s => { c2 with DockerHubMirror := s }
      | none => c2
    match d ("driver:options") with
    | some (.map kvs) => parseConfigRest { c3 with DriverOpts := stringKeyed kvs } d
    | some _ => (.fault, c3)
    | none => parseConfigRest c3 d

/-! Helper lemmas about the option selection of the machine pool allocator. -/

theorem oFor_of_optsFor {configs : List (String × List V)} {i : Nat} {o : DriverOpts V}
    (h : optsFor configs i = some o) : oFor configs i = o := by
  simp [oFor, h]

theorem optsFor_exists_some (configs : List (String × List V)) (i : Nat)
    (h : ∀ kv ∈ configs, kv.2 ≠ []) :
    ∃ o, optsFor configs i = some o := by
  induction configs with
  | nil => exact ⟨[], rfl⟩
  | cons kv rest ih =>
    have hkv : kv.2 ≠ [] := h kv (List.mem_cons_self _ _)
    have hlen : 0 < kv.2.length := List.length_pos.mpr hkv
    have hmod : i % kv.2.length < kv.2.length := Nat.mod_lt _ hlen
    have hget : kv.2.get? (i % kv.2.length) = some (kv.2.get ⟨i % kv.2.length, hmod⟩) :=
      List.get?_eq_get hmod
    obtain ⟨o, ho⟩ := ih (fun x hx => h x (List.mem_cons_of_mem _ hx))
    exact ⟨(kv.1, kv.2.get ⟨i % kv.2.length, hmod⟩) :: o, by simp only [optsFor, hget, ho]⟩

theorem optsFor_eq_some (configs : List (String × List V)) (i : Nat)
    (h : ∀ kv ∈ configs, kv.2 ≠ []) :
    optsFor configs i = some (oFor configs i) := by
  obtain ⟨o, ho⟩ := optsFor_exists_some configs i h
  rw [ho, oFor_of_optsFor ho]

theorem optsFor_keys {configs : List (String × List V)} {i : Nat} {o : DriverOpts V}
    (h : optsFor configs i = some o) : o.map Prod.fst = configs.map Prod.fst := by
  induction configs generalizing o with
  | nil =>
    simp only [optsFor] at h
    cases h
    rfl
  | cons kv rest ih =>
    simp only [optsFor] at h
    cases hget : kv.2.get? (i % kv.2.length) with
    | none => rw [hget] at h; cases hrest : optsFor rest i <;> rw [hrest] at h <;> cases h
    | some v =>
      rw [hget] at h
      cases hrest : optsFor rest i with
      | none => rw [hrest] at h; cases h
      | some o2 =>
        rw [hrest] at h
        cases h
        simpa using ih hrest

theorem optsFor_mem {configs : List (String × List V)} {i : Nat} {o : DriverOpts V}
    (h : optsFor configs i = some o) :
    ∀ kv ∈ configs, ∃ v, kv.2.get? (i % kv.2.length) = some v ∧ (kv.1, v) ∈ o := by
  induction configs generalizing o with
  | nil => intro kv hkv; cases hkv
  | cons kv rest ih =>
    simp only [optsFor] at h
    cases hget : kv.2.get? (i % kv.2.length) with
    | none => rw [hget] at h; cases hrest : optsFor rest i <;> rw [hrest] at h <;> cases h
    | some v =>
      rw [hget] at h
      cases hrest : optsFor rest i with
      | none => rw [hrest] at h; cases h
      | some o2 =>
        rw [hrest] at h
        cases h
        intro kv2 hkv2
        rcases List.mem_cons.mp hkv2 with h2 | h2
        · subst h2
          exact ⟨v, hget, List.mem_cons_self _ _⟩
        · rcases ih hrest kv2 h2 with ⟨v2, hv2, hmem⟩
          exact ⟨v2, hv2, List.mem_cons_of_mem _ hmem⟩

/-! Characterizations of the provisioning loop: the always-succeeding run and
the run whose provisioner fails at index k. -/

theorem provisionFrom_ok (p : Nat → DriverOpts V → Except String M) (g : Nat → M)
    (configs : List (String × List V))
    (hsome : ∀ j, optsFor configs j = some (oFor configs j))
    (hp : ∀ j, p j (oFor configs j) = Except.ok (g j)) :
    ∀ n i, provisionFrom p configs i n =
      (Outcome.ok ((List.range' i n).map g),
       (List.range' i n).map (fun j => PCall.provision (oFor configs j))) := by
  intro n
  induction n with
  | zero => intro i; rfl
  | succ n ih =>
    intro i
    simp only [provisionFrom, hsome i, hp i, ih (i + 1), List.range'_succ, List.map_cons]

theorem provisionFrom_fail (p : Nat → DriverOpts V → Except String M) (g : Nat → M)
    (configs : List (String × List V)) (k : Nat) (e : String)
    (hsome : ∀ j, optsFor configs j = some (oFor configs j))
    (hok : ∀ j, j < k → p j (oFor configs j) = Except.ok (g j))
    (hfail : p k (oFor configs k) = Except.error e) :
    ∀ n i, i ≤ k → k < i + n →
      provisionFrom p configs i n =
        (Outcome.err (String.append ("failed to provision machines: ") e),
         (List.range' i (k + 1 - i)).map (fun j => PCall.provision (oFor configs j))) := by
  intro n
  induction n with
  | zero => intro i h1 h2; exact absurd h2 (by omega)
  | succ n ih =>
    intro i hik hk
    by_cases hcase : i = k
    · subst hcase
      have h1 : i + 1 - i = 1 := by omega
      simp only [provisionFrom, hsome i, hfail, h1, List.range'_succ, List.range'_zero,
        List.map_cons, List.map_nil]
    · have hik' : i < k := by omega
      have hrec := ih (i + 1) (by omega) (by omega)
      have h1 : k + 1 - i = (k + 1 - (i + 1)) + 1 := by omega
      simp only [provisionFrom, hsome i, hok i hik', hrec, h1, List.range'_succ, List.map_cons]

theorem ProvisionMachines_ok_eq (p : Nat → DriverOpts V → Except String M) (g : Nat → M)
    (configs : List (String × List V)) (count : Int)
    (hsome : ∀ j, optsFor configs j = some (oFor configs j))
    (hp : ∀ j, p j (oFor configs j) = Except.ok (g j)) :
    ProvisionMachines p count configs =
      (Outcome.ok ((List.range count.toNat).map g),
       (List.range count.toNat).map (fun j => PCall.provision (oFor configs j))) := by
  unfold ProvisionMachines
  have h := provisionFrom_ok p g configs hsome hp count.toNat 0
  simpa [List.range_eq_range'] using h

theorem provisionFrom_ne_fault (p : Nat → DriverOpts V → Except String M)
    (configs : List (String × List V))
    (hsome : ∀ j, ∃ o, optsFor configs j = some o) :
    ∀ n i, (provisionFrom p configs i n).1 ≠ Outcome.fault := by
  intro n
  induction n with
  | zero => intro i h; cases h
  | succ n ih =>
    intro i
    obtain ⟨o, ho⟩ := hsome i
    simp only [provisionFrom, ho]
    cases hp : p i o with
    | error e => exact fun h => Outcome.noConfusion h
    | ok m =>
      cases hr : (provisionFrom p configs (i + 1) n).1 with
      | ok ms => exact fun h => Outcome.noConfusion h
      | err msg => exact fun h => Outcome.noConfusion h
      | fault => exact absurd hr (ih (i + 1))

/-- C1: for every count > 0 and every options map whose value lists are all
non-empty, ProvisionMachines builds the option set of machine index i by
selecting, for every option key, the value at position i % len(values); in
particular a single key with a list of length L gives machine i the value at
i % L, for every i < count. -/
theorem provisionMachines_roundrobin (f : Nat → DriverOpts V → M)
    (configs : List (String × List V)) (count : Int) (i : Nat)
    (hne : ∀ kv ∈ configs, kv.2 ≠ []) (hi : (i : Int) < count) :
    ∃ o, (ProvisionMachines (fun j x => Except.ok (f j x)) count configs).2.get? i
        = some (PCall.provision o)
      ∧ optsFor configs i = some o
      ∧ o.map Prod.fst = configs.map Prod.fst
      ∧ (∀ kv ∈ configs, ∃ v, kv.2.get? (i % kv.2.length) = some v ∧ (kv.1, v) ∈ o)
      ∧ (∀ key vs, configs = [(key, vs)] →
          ∃ v, vs.get? (i % vs.length) = some v ∧ o = [(key, v)]) := by
  have hsome : ∀ j, optsFor configs j = some (oFor configs j) :=
    fun j => optsFor_eq_some configs j hne
  have hi' : i < count.toNat := by omega
  refine ⟨oFor configs i, ?_, hsome i, optsFor_keys (hsome i), optsFor_mem (hsome i), ?_⟩
  · rw [ProvisionMachines_ok_eq (fun j x => Except.ok (f j x))
      (fun j => f j (oFor configs j)) configs count hsome (fun j => rfl)]
    simp [List.get?_eq_getElem?, List.getElem?_range hi']
  · intro key vs hc
    subst hc
    obtain ⟨v, hv, _⟩ := optsFor_mem (hsome i) (key, vs) (List.mem_cons_self _ _)
    refine ⟨v, hv, ?_⟩
    have h3 := hsome i
    simp only [optsFor, hv] at h3
    exact (Option.some.inj h3).symm

/-- Witness for C1: provisioning 4 machines with the single option
zone = [a, b] hands machine index 2 the value a, at position 2 % 2. -/
theorem provisionMachines_roundrobin_witness :
    (ProvisionMachines (fun j (x : DriverOpts String) => Except.ok (j, x)) 4
        [(("zone" : String), ["a", "b"])]).2.get? 2
      = some (PCall.provision [("zone", "a")]) := by
  obtain ⟨o, h1, h2, _⟩ :=
    provisionMachines_roundrobin (fun j (x : DriverOpts String) => (j, x))
      [(("zone" : String), ["a", "b"])] 4 2 (by decide) (by decide)
  have h3 : optsFor [(("zone" : String), ["a", "b"])] 2 = some [("zone", "a")] := rfl
  have h4 : o = [(("zone" : String), ("a" : String))] := Option.some.inj (h2.symm.trans h3)
  rw [h4] at h1
  exact h1

/-- C2: ProvisionMachines invokes the provisioner once per machine,
sequentially in index order; if the provisioner fails at index k it returns
the wrapped error immediately, the provisioner is never invoked for an index
beyond k, no rollback call is ever made, and an always succeeding run returns
the machines in request order. -/
theorem provisionMachines_failfast (p : Nat → DriverOpts V → Except String M)
    (g : Nat → M) (configs : List (String × List V)) (count : Int) (k : Nat) (e : String)
    (hne : ∀ kv ∈ configs, kv.2 ≠ [])
    (hk : (k : Int) < count)
    (hok : ∀ j, j < k → p j (oFor configs j) = Except.ok (g j))
    (hfail : p k (oFor configs k) = Except.error e) :
    ProvisionMachines p count configs =
      (Outcome.err (String.append ("failed to provision machines: ") e),
       (List.range (k + 1)).map (fun j => PCall.provision (oFor configs j)))
    ∧ (∀ c ∈ (ProvisionMachines p count configs).2, ∃ o, c = PCall.provision o)
    ∧ (∀ q : Nat → DriverOpts V → M,
        ProvisionMachines (fun j x => Except.ok (q j x)) count configs =
          (Outcome.ok ((List.range count.toNat).map (fun j => q j (oFor configs j))),
           (List.range count.toNat).map (fun j => PCall.provision (oFor configs j)))) := by
  have hsome : ∀ j, optsFor configs j = some (oFor configs j) :=
    fun j => optsFor_eq_some configs j hne
  have hmain : ProvisionMachines p count configs =
      (Outcome.err (String.append ("failed to provision machines: ") e),
       (List.range (k + 1)).map (fun j => PCall.provision (oFor configs j))) := by
    unfold ProvisionMachines
    have h := provisionFrom_fail p g configs k e hsome hok hfail count.toNat 0
      (by omega) (by omega)
    simpa [List.range_eq_range'] using h
  refine ⟨hmain, ?_, ?_⟩
  · rw [hmain]
    intro c hc
    rw [List.mem_map] at hc
    obtain ⟨j, _, hj⟩ := hc
    exact ⟨oFor configs j, hj.symm⟩
  · intro q
    exact ProvisionMachines_ok_eq (fun j x => Except.ok (q j x))
      (fun j => q j (oFor configs j)) configs count hsome (fun j => rfl)

/-- The concrete provisioner of the C2 witness: its state is the invocation
index, and the second invocation fails. -/
def failingProvisioner : Nat → DriverOpts String → Except String (Nat × DriverOpts String) :=
  fun j o => if j = 1 then Except.error ("boom") else Except.ok (j, o)

/-- Witness for C2: with the single option zone = [a, b] and a provisioner
failing at index 1, exactly machines 0 and 1 are attempted, in order, and the
wrapped error is returned. -/
theorem provisionMachines_failfast_witness :
    ProvisionMachines failingProvisioner 3 [(("zone" : String), ["a", "b"])] =
      (Outcome.err ("failed to provision machines: boom"),
       [PCall.provision [("zone", "a")], PCall.provision [("zone", "b")]]) := by
  have h := (provisionMachines_failfast failingProvisioner
    (fun j => (j, oFor [(("zone" : String), ["a", "b"])] j))
    [(("zone" : String), ["a", "b"])] 3 1 ("boom")
    (by decide) (by decide)
    (by intro j hj
        have h0 : j = 0 := by omega
        subst h0
        rfl)
    rfl).1
  rw [h]
  rfl

/-- C10: ProvisionMachines is total only when every option key maps to a
non-empty value list: the index computation i % len(values) is then in
bounds for every machine index and the run never faults, while an option key
mapped to an empty list makes the run fault before any provisioner
invocation; and parseDriverOptsSlice does not rule such inputs out, since it
keeps a sequence value as-is, an empty sequence included. -/
theorem provisionMachines_empty_options_fault :
    (∀ (V M : Type) (configs : List (String × List V))
       (p : Nat → DriverOpts V → Except String M) (count : Int),
       (∀ kv ∈ configs, kv.2 ≠ []) →
       (ProvisionMachines p count configs).1 ≠ Outcome.fault)
    ∧ (∀ (V : Type) (configs : List (String × List V)) (i : Nat),
       (∀ kv ∈ configs, kv.2 ≠ []) →
       ∀ kv ∈ configs, i % kv.2.length < kv.2.length)
    ∧ (∀ (M : Type) (p : Nat → DriverOpts GoVal → Except String M),
       ProvisionMachines p 1 [(("zone" : String), ([] : List GoVal))] = (Outcome.fault, []))
    ∧ parseDriverOptsSlice (GoVal.map [(GoVal.str ("zone"), GoVal.list [])])
        = Except.ok [(("zone" : String), ([] : List GoVal))] := by
  refine ⟨?_, ?_, ?_, rfl⟩
  · intro V M configs p count hne
    exact provisionFrom_ne_fault p configs
      (fun j => optsFor_exists_some configs j hne) count.toNat 0
  · intro V configs i hne kv hkv
    exact Nat.mod_lt _ (List.length_pos.mpr (hne kv hkv))
  · intro M p
    rfl

/-- Witness for C10: a concrete machine type and provisioner; with the
non-empty option list the run does not fault, with the empty option list the
run faults before calling the provisioner, and the empty sequence comes out
of parseDriverOptsSlice unchanged. -/
theorem provisionMachines_empty_options_fault_witness :
    (ProvisionMachines (fun j (o : DriverOpts GoVal) => Except.ok (j, o)) 2
        [(("zone" : String), [GoVal.str ("a")])]).1 ≠ Outcome.fault
    ∧ ProvisionMachines (fun j (o : DriverOpts GoVal) => Except.ok (j, o)) 1
        [(("zone" : String), ([] : List GoVal))] = (Outcome.fault, [])
    ∧ parseDriverOptsSlice (GoVal.map [(GoVal.str ("zone"), GoVal.list [])])
        = Except.ok [(("zone" : String), ([] : List GoVal))] :=
  ⟨provisionMachines_empty_options_fault.1 GoVal (Nat × DriverOpts GoVal)
      [(("zone" : String), [GoVal.str ("a")])]
      (fun j o => Except.ok (j, o)) 2
      (by intro kv hkv
          rw [List.mem_singleton] at hkv
          subst hkv
          exact List.cons_ne_nil _ _),
   provisionMachines_empty_options_fault.2.2.1 (Nat × DriverOpts GoVal)
      (fun j o => Except.ok (j, o)),
   provisionMachines_empty_options_fault.2.2.2⟩

/-- C3: for every non-dedicated plan whose apps host count exceeds the core
machines, ProvisionPool provisions exactly the deficit of fresh machines and
returns them concatenated with all core machines, fresh first; the result has
length AppsHosts and its suffix of length len(coreMachines) is coreMachines
unchanged. -/
theorem provisionPool_mixed (g : Nat → DriverOpts GoVal → Machine)
    (config : TsuruInstallConfig) (hosts : List Machine)
    (hded : config.DedicatedAppsHosts = false)
    (hgt : (hosts.length : Int) < config.AppsHosts)
    (hne : ∀ kv ∈ config.AppsDriversOpts, kv.2 ≠ []) :
    ∃ fresh,
      ProvisionPool (fun j o => Except.ok (g j o)) config hosts =
        (Outcome.ok (fresh ++ hosts),
         (List.range (config.AppsHosts - (hosts.length : Int)).toNat).map
           (fun j => PCall.provision (oFor config.AppsDriversOpts j)))
      ∧ fresh.length = (config.AppsHosts - (hosts.length : Int)).toNat
      ∧ (fresh ++ hosts).length = config.AppsHosts.toNat
      ∧ (fresh ++ hosts).drop ((fresh ++ hosts).length - hosts.length) = hosts := by
  have hsome : ∀ j, optsFor config.AppsDriversOpts j = some (oFor config.AppsDriversOpts j) :=
    fun j => optsFor_eq_some config.AppsDriversOpts j hne
  refine ⟨(List.range (config.AppsHosts - (hosts.length : Int)).toNat).map
      (fun j => g j (oFor config.AppsDriversOpts j)), ?_, ?_, ?_, ?_⟩
  · unfold ProvisionPool
    rw [ProvisionMachines_ok_eq (fun j o => Except.ok (g j o))
      (fun j => g j (oFor config.AppsDriversOpts j)) config.AppsDriversOpts
      (config.AppsHosts - (hosts.length : Int)) hsome (fun j => rfl)]
    simp [hded, hgt]
  · simp
  · simp
    omega
  · rw [List.length_append]
    have h2 : ((List.range (config.AppsHosts - (hosts.length : Int)).toNat).map
          (fun j => g j (oFor config.AppsDriversOpts j))).length + hosts.length - hosts.length
        = ((List.range (config.AppsHosts - (hosts.length : Int)).toNat).map
          (fun j => g j (oFor config.AppsDriversOpts j))).length := by omega
    rw [h2, List.drop_left]

/-- Three concrete core machines used by the pool policy witnesses. -/
def coreTriple : List Machine :=
  [{ name := "m1", driver := "d1" }, { name := "m2", driver := "d2" },
   { name := "m3", driver := "d3" }]

/-- A non-dedicated plan asking for five apps hosts. -/
def mixedPlan : TsuruInstallConfig :=
  { defaultTsuruInstallConfig with AppsHosts := 5 }

/-- A concrete provisioner output for the pool policy witnesses. -/
def freshMachine : Nat → DriverOpts GoVal → Machine :=
  fun j _ => { name := String.append ("new") (toString j), driver := "" }

/-- Witness for C3: appsHosts = 5 with 3 core machines yields 2 freshly
provisioned machines followed by the 3 core machines. -/
theorem provisionPool_mixed_witness :
    ∃ fresh,
      ProvisionPool (fun j o => Except.ok (freshMachine j o)) mixedPlan coreTriple =
        (Outcome.ok (fresh ++ coreTriple),
         (List.range (mixedPlan.AppsHosts - (coreTriple.length : Int)).toNat).map
           (fun j => PCall.provision (oFor mixedPlan.AppsDriversOpts j)))
      ∧ fresh.length = (mixedPlan.AppsHosts - (coreTriple.length : Int)).toNat
      ∧ (fresh ++ coreTriple).length = mixedPlan.AppsHosts.toNat
      ∧ (fresh ++ coreTriple).drop ((fresh ++ coreTriple).length - coreTriple.length)
          = coreTriple :=
  provisionPool_mixed freshMachine mixedPlan coreTriple rfl (by decide)
    (fun kv h => absurd h (List.not_mem_nil kv))

/-- C4: the component installer sequencer iterates the catalog in declared
order, invoking each install operation with the cluster handle and the
settings; when a component fails, exactly the components up to and including
the failing one have been invoked, the error names the failing component,
and no rollback of earlier components happens. -/
theorem installComponents_failfast {C S : Type} (cluster : C) (conf : S)
    (pre : List (TsuruComponent C S)) (b : TsuruComponent C S)
    (post : List (TsuruComponent C S)) (e : String)
    (hpre : ∀ c ∈ pre, c.install cluster conf = Except.ok ())
    (hb : b.install cluster conf = Except.error e) :
    installComponents (pre ++ b :: post) cluster conf =
      (Except.error (String.append ("error installing ")
        (String.append b.name (String.append (": ") e))),
       pre.map (fun c => c.name) ++ [b.name]) := by
  induction pre with
  | nil => simp only [List.nil_append, installComponents, hb, List.map_nil]
  | cons c rest ih =>
    have hc : c.install cluster conf = Except.ok () := hpre c (List.mem_cons_self _ _)
    have ih' := ih (fun x hx => hpre x (List.mem_cons_of_mem _ hx))
    simp only [List.cons_append, installComponents, hc, List.append_eq, ih', List.map_cons]

/-- Catalog entry A of the sequencer witness: installs successfully. -/
def compA : TsuruComponent Unit Unit :=
  { name := "A", install := fun _ _ => Except.ok () }

/-- Catalog entry B of the sequencer witness: fails to install. -/
def compB : TsuruComponent Unit Unit :=
  { name := "B", install := fun _ _ => Except.error ("compB failed") }

/-- Catalog entry C of the sequencer witness: would install successfully. -/
def compC : TsuruComponent Unit Unit :=
  { name := "C", install := fun _ _ => Except.ok () }

/-- Witness for C4: on the catalog [A, B, C] with B failing, exactly A and B
are invoked and the error names B. -/
theorem installComponents_failfast_witness :
    installComponents [compA, compB, compC] () () =
      (Except.error (String.append ("error installing ")
        (String.append compB.name (String.append (": ") ("compB failed")))),
       [compA].map (fun c => c.name) ++ [compB.name]) :=
  installComponents_failfast () () [compA] compB [compC] ("compB failed")
    (by intro c hc
        rw [List.mem_singleton] at hc
        subst hc
        rfl)
    rfl

/-- C5: ProvisionPool is tri-modal.  A dedicated plan always provisions
AppsHosts fresh machines via the allocator, ignoring the core machines, and
every returned machine is one the provisioner produced; a non-dedicated plan
whose apps host count fits within the core machines returns exactly the first
AppsHosts core machines in their original order and never invokes the
provisioner. -/
theorem provisionPool_trimodal :
    (∀ (p : Nat → DriverOpts GoVal → Except String Machine)
       (config : TsuruInstallConfig) (hosts : List Machine),
       config.DedicatedAppsHosts = true →
       ProvisionPool p config hosts
         = ProvisionMachines p config.AppsHosts config.AppsDriversOpts)
    ∧ (∀ (g : Nat → DriverOpts GoVal → Machine)
       (config : TsuruInstallConfig) (hosts : List Machine),
       config.DedicatedAppsHosts = true →
       (∀ kv ∈ config.AppsDriversOpts, kv.2 ≠ []) →
       ∃ ms, ProvisionPool (fun j o => Except.ok (g j o)) config hosts
           = (Outcome.ok ms,
              (List.range config.AppsHosts.toNat).map
                (fun j => PCall.provision (oFor config.AppsDriversOpts j)))
         ∧ ms.length = config.AppsHosts.toNat
         ∧ ∀ m ∈ ms, ∃ j, m = g j (oFor config.AppsDriversOpts j))
    ∧ (∀ (p : Nat → DriverOpts GoVal → Except String Machine)
       (config : TsuruInstallConfig) (hosts : List Machine),
       config.DedicatedAppsHosts = false →
       0 ≤ config.AppsHosts → config.AppsHosts ≤ (hosts.length : Int) →
       ProvisionPool p config hosts
         = (Outcome.ok (hosts.take config.AppsHosts.toNat), [])) := by
  refine ⟨?_, ?_, ?_⟩
  · intro p config hosts hded
    simp [ProvisionPool, hded]
  · intro g config hosts hded hne
    have hsome : ∀ j, optsFor config.AppsDriversOpts j
        = some (oFor config.AppsDriversOpts j) :=
      fun j => optsFor_eq_some config.AppsDriversOpts j hne
    refine ⟨(List.range config.AppsHosts.toNat).map
        (fun j => g j (oFor config.AppsDriversOpts j)), ?_, by simp, ?_⟩
    · rw [ProvisionPool, if_pos hded,
        ProvisionMachines_ok_eq (fun j o => Except.ok (g j o))
          (fun j => g j (oFor config.AppsDriversOpts j)) config.AppsDriversOpts
          config.AppsHosts hsome (fun j => rfl)]
    · intro m hm
      rw [List.mem_map] at hm
      obtain ⟨j, _, hj⟩ := hm
      exact ⟨j, hj.symm⟩
  · intro p config hosts hded h0 hle
    have h1 : ¬ ((hosts.length : Int) < config.AppsHosts) := by omega
    have h2 : ¬ (config.AppsHosts < 0) := by omega
    simp [ProvisionPool, hded, h1, h2]

/-- A dedicated plan asking for two apps hosts. -/
def dedicatedPlan : TsuruInstallConfig :=
  { defaultTsuruInstallConfig with DedicatedAppsHosts := true, AppsHosts := 2 }

/-- Witness for C5: a dedicated plan delegates to the allocator ignoring the
three core machines, and the default non-dedicated plan reuses the first core
machine without any provisioner call. -/
theorem provisionPool_trimodal_witness :
    ProvisionPool (fun j o => Except.ok (freshMachine j o)) dedicatedPlan coreTriple
      = ProvisionMachines (fun j o => Except.ok (freshMachine j o))
          dedicatedPlan.AppsHosts dedicatedPlan.AppsDriversOpts
    ∧ ProvisionPool (fun j o => Except.ok (freshMachine j o))
        defaultTsuruInstallConfig coreTriple
      = (Outcome.ok (coreTriple.take defaultTsuruInstallConfig.AppsHosts.toNat), []) :=
  ⟨provisionPool_trimodal.1 (fun j o => Except.ok (freshMachine j o))
      dedicatedPlan coreTriple rfl,
   provisionPool_trimodal.2.2 (fun j o => Except.ok (freshMachine j o))
      defaultTsuruInstallConfig coreTriple rfl (by decide) (by decide)⟩

/-- Lookup in the association list model of the Go machineIndex map. -/
def assocFind (l : List (String × Machine)) (n : String) : Option Machine :=
  (l.find? (fun kv => kv.1 == n)).map Prod.snd

theorem assocFind_nil (n : String) : assocFind [] n = none := rfl

theorem assocFind_cons (kv : String × Machine) (tl : List (String × Machine)) (n : String) :
    assocFind (kv :: tl) n = if kv.1 = n then some kv.2 else assocFind tl n := by
  by_cases h : kv.1 = n
  · rw [if_pos h]
    unfold assocFind
    rw [List.find?_cons_of_pos _ (by simp [h])]
    rfl
  · rw [if_neg h]
    unfold assocFind
    rw [List.find?_cons_of_neg _ (by simp [h])]

theorem assocFind_map_repl (m : Machine) (n : String) :
    ∀ idx : List (String × Machine),
      assocFind (idx.map (fun kv => if kv.1 == m.name then (m.name, m) else kv)) n =
        if m.name = n then
          (if idx.any (fun kv => kv.1 == m.name) then some m else none)
        else assocFind idx n
  | [] => by by_cases h : m.name = n <;> simp [assocFind_nil, h]
  | kv :: tl => by
    have ih := assocFind_map_repl m n tl
    rw [List.map_cons]
    by_cases h1 : kv.1 = m.name
    · rw [if_pos (by simp [h1])]
      rw [assocFind_cons, ih, List.any_cons]
      by_cases h2 : m.name = n
      · simp [h1, h2]
      · simp [assocFind_cons, h1, h2]
    · rw [if_neg (by simp [h1])]
      rw [assocFind_cons, ih, List.any_cons]
      by_cases h2 : m.name = n <;> by_cases h3 : kv.1 = n
      · exact absurd (h3.trans h2.symm) h1
      · have h4 : (kv.1 == m.name) = false := by simp [h1]
        rw [h4, Bool.false_or, if_neg h3, if_pos h2, if_pos h2]
      · simp [assocFind_cons, h2, h3]
      · simp [assocFind_cons, h2, h3]

theorem assocFind_append_single (idx : List (String × Machine)) (m : Machine) (n : String)
    (h : idx.any (fun kv => kv.1 == m.name) = false) :
    assocFind (idx ++ [(m.name, m)]) n = if m.name = n then some m else assocFind idx n := by
  unfold assocFind
  rw [List.find?_append]
  by_cases h2 : m.name = n
  · have hnone : idx.find? (fun kv => kv.1 == n) = none := by
      rw [List.find?_eq_none]
      intro kv hkv
      have h3 := List.any_eq_false.mp h kv hkv
      rw [← h2]
      exact h3
    rw [hnone, if_pos h2]
    simp [h2]
  · have hsing : ([(m.name, m)].find? (fun kv => kv.1 == n)) = none := by
      simp [h2]
    rw [hsing, if_neg h2, Option.or_none]

theorem assocFind_insert (idx : List (String × Machine)) (m : Machine) (n : String) :
    assocFind (insertMachine idx m) n = if m.name = n then some m else assocFind idx n := by
  unfold insertMachine
  by_cases hany : idx.any (fun kv => kv.1 == m.name) = true
  · rw [if_pos hany, assocFind_map_repl]
    by_cases h2 : m.name = n
    · rw [if_pos h2, if_pos h2, if_pos hany]
    · rw [if_neg h2, if_neg h2]
  · have hfalse : idx.any (fun kv => kv.1 == m.name) = false := by
      cases hval : idx.any (fun kv => kv.1 == m.name)
      · rfl
      · exact absurd hval hany
    rw [if_neg hany, assocFind_append_single idx m n hfalse]

theorem assocFind_foldl (n : String) (ms : List Machine) :
    ∀ acc : List (String × Machine),
      assocFind (ms.foldl insertMachine acc) n =
        match (ms.filter (fun m => m.name == n)).getLast? with
        | some m => some m
        | none => assocFind acc n := by
  induction ms using List.reverseRecOn with
  | nil => intro acc; rfl
  | append_singleton ms m ih =>
    intro acc
    rw [List.foldl_append, List.foldl_cons, List.foldl_nil, assocFind_insert, ih acc,
      List.filter_append]
    by_cases h2 : m.name = n
    · have hone : List.filter (fun m => m.name == n) [m] = [m] := by simp [h2]
      rw [hone, List.getLast?_concat, if_pos h2]
    · have hnil : List.filter (fun m => m.name == n) [m] = [] := by simp [h2]
      rw [hnil, List.append_nil, if_neg h2]

/-- Invariant of the machineIndex association list: every entry is keyed by
the name of the machine it holds, and keys are pairwise distinct. -/
def goodIdx (l : List (String × Machine)) : Prop :=
  (∀ kv ∈ l, kv.1 = kv.2.name) ∧ (l.map Prod.fst).Nodup

theorem goodIdx_insert (l : List (String × Machine)) (m : Machine) (h : goodIdx l) :
    goodIdx (insertMachine l m) := by
  obtain ⟨h1, h2⟩ := h
  unfold insertMachine
  by_cases hany : l.any (fun kv => kv.1 == m.name) = true
  · rw [if_pos hany]
    constructor
    · intro kv hkv
      rw [List.mem_map] at hkv
      obtain ⟨kv0, hkv0, heq⟩ := hkv
      by_cases hk : kv0.1 = m.name
      · rw [if_pos (by simp [hk])] at heq
        rw [← heq]
      · rw [if_neg (by simp [hk])] at heq
        rw [← heq]
        exact h1 kv0 hkv0
    · have hkeys : (l.map (fun kv => if kv.1 == m.name then (m.name, m) else kv)).map Prod.fst
          = l.map Prod.fst := by
        rw [List.map_map]
        apply List.map_congr_left
        intro kv hkv
        by_cases hk : kv.1 = m.name
        · rw [Function.comp_apply, if_pos (by simp [hk])]
          exact hk.symm
        · rw [Function.comp_apply, if_neg (by simp [hk])]
      rw [hkeys]
      exact h2
  · rw [if_neg hany]
    constructor
    · intro kv hkv
      rcases List.mem_append.mp hkv with hin | hin
      · exact h1 kv hin
      · rw [List.mem_singleton] at hin
        rw [hin]
    · rw [List.map_append]
      refine List.Nodup.append h2 (List.nodup_singleton _) ?_
      intro a ha hb
      rw [List.map_singleton, List.mem_singleton] at hb
      rw [List.mem_map] at ha
      obtain ⟨kv, hkv, hfst⟩ := ha
      have hfalse : (kv.1 == m.name) = false := by
        cases hval : l.any (fun kv => kv.1 == m.name)
        · have h5 := List.any_eq_false.mp hval kv hkv
          rw [Bool.not_eq_true] at h5
          exact h5
        · exact absurd hval hany
      rw [hfst, hb] at hfalse
      simp at hfalse

theorem goodIdx_foldl (ms : List Machine) :
    ∀ acc, goodIdx acc → goodIdx (ms.foldl insertMachine acc) := by
  induction ms with
  | nil => intro acc h; exact h
  | cons m tl ih => intro acc h; exact ih _ (goodIdx_insert acc m h)

theorem goodIdx_machineIndex (ms : List Machine) : goodIdx (machineIndex ms) :=
  goodIdx_foldl ms [] ⟨fun kv h => absurd h (List.not_mem_nil kv), List.nodup_nil⟩

theorem values_countP (l : List (String × Machine)) (h : goodIdx l) (n : String) :
    (l.map Prod.snd).countP (fun m => m.name == n)
      = if (assocFind l n).isSome then 1 else 0 := by
  obtain ⟨h1, h2⟩ := h
  have hcongr : List.countP ((fun m : Machine => m.name == n) ∘ Prod.snd) l
      = List.countP (fun kv : String × Machine => kv.1 == n) l :=
    List.countP_congr (fun kv hkv => by
      show ((kv.2.name == n) = true) ↔ ((kv.1 == n) = true)
      rw [h1 kv hkv])
  have hkeys : List.countP (fun kv : String × Machine => kv.1 == n) l
      = (l.map Prod.fst).count n := by
    rw [show (fun kv : String × Machine => kv.1 == n)
        = ((fun k => k == n) ∘ Prod.fst) from rfl]
    rw [← List.countP_map]
    rfl
  rw [List.countP_map, hcongr, hkeys]
  by_cases hn : n ∈ l.map Prod.fst
  · rw [List.count_eq_one_of_mem h2 hn]
    obtain ⟨kv, hkv, hfst⟩ := List.mem_map.mp hn
    have hs : (assocFind l n).isSome = true := by
      unfold assocFind
      rw [Option.isSome_map']
      exact List.find?_isSome.mpr ⟨kv, hkv, by simp [hfst]⟩
    rw [if_pos hs]
  · rw [List.count_eq_zero_of_not_mem hn]
    have hs : (assocFind l n).isSome = false := by
      unfold assocFind
      rw [Option.isSome_map']
      cases hfind : l.find? (fun kv => kv.1 == n) with
      | none => rfl
      | some kv =>
        have hmem := List.mem_of_find?_eq_some hfind
        have hp := List.find?_some hfind
        rw [beq_iff_eq] at hp
        exact absurd (List.mem_map.mpr ⟨kv, hmem, hp⟩) hn
    rw [if_neg (by simp [hs])]

theorem values_find (l : List (String × Machine)) (h1 : ∀ kv ∈ l, kv.1 = kv.2.name)
    (n : String) :
    (l.map Prod.snd).find? (fun m => m.name == n) = assocFind l n := by
  induction l with
  | nil => rfl
  | cons kv tl ih =>
    have hkv := h1 kv (List.mem_cons_self _ _)
    have ih' := ih (fun x hx => h1 x (List.mem_cons_of_mem _ hx))
    rw [List.map_cons]
    by_cases h2 : kv.2.name = n
    · rw [List.find?_cons_of_pos _ (by simp [h2]), assocFind_cons, if_pos (hkv.trans h2)]
    · rw [List.find?_cons_of_neg _ (by simp [h2]), assocFind_cons,
        if_neg (fun hc => h2 (hkv.symm.trans hc)), ih']

/-- C6: the host registrar de-duplicates the combined core and apps machine
list by machine name before registering: exactly one registration request is
sent per occurring name, and the request for a name carries the machine that
occurs last in the combined list (core machines first, apps machines
appended), so when names collide the later machine wins. -/
theorem hostRegistrar_dedup (core apps : List Machine) (n : String) :
    ((addInstallHosts (uniqueMachines core apps)).countP (fun r => r.name == n)
        = if (core ++ apps).any (fun m => m.name == n) then 1 else 0)
    ∧ ((addInstallHosts (uniqueMachines core apps)).find? (fun r => r.name == n)
        = (((core ++ apps).filter (fun m => m.name == n)).getLast?).map hostRecordOf) := by
  have hgood := goodIdx_machineIndex (core ++ apps)
  have hmid : (match ((core ++ apps).filter (fun m => m.name == n)).getLast? with
      | some m => some m
      | none => assocFind ([] : List (String × Machine)) n)
      = ((core ++ apps).filter (fun m => m.name == n)).getLast? := by
    cases hcase : ((core ++ apps).filter (fun m => m.name == n)).getLast? <;> rfl
  constructor
  · unfold addInstallHosts
    rw [List.countP_map]
    rw [show ((fun r : HostRecord => r.name == n) ∘ hostRecordOf)
        = (fun m : Machine => m.name == n) from rfl]
    rw [uniqueMachines, values_countP (machineIndex (core ++ apps)) hgood n]
    rw [machineIndex, assocFind_foldl n (core ++ apps) [], hmid]
    by_cases hany : (core ++ apps).any (fun m => m.name == n) = true
    · obtain ⟨m, hm, hpm⟩ := List.any_eq_true.mp hany
      have hne : (core ++ apps).filter (fun m => m.name == n) ≠ [] := by
        intro hnil
        rw [List.filter_eq_nil_iff] at hnil
        exact hnil m hm hpm
      rw [if_pos (List.getLast?_isSome.mpr hne), if_pos hany]
    · have hnil : (core ++ apps).filter (fun m => m.name == n) = [] :=
        List.filter_eq_nil_iff.mpr (fun a ha hp =>
          hany (List.any_eq_true.mpr ⟨a, ha, hp⟩))
      rw [hnil]
      simp [hany]
  · unfold addInstallHosts
    rw [List.find?_map]
    rw [show ((fun r : HostRecord => r.name == n) ∘ hostRecordOf)
        = (fun m : Machine => m.name == n) from rfl]
    rw [uniqueMachines, values_find (machineIndex (core ++ apps)) hgood.1 n]
    rw [machineIndex, assocFind_foldl n (core ++ apps) [], hmid]

/-- A configuration document containing only the key hosts:core:size with
value 3. -/
def docCore3 : ConfigDoc :=
  fun k => if k = "hosts:core:size" then some (GoVal.int 3) else none

/-- C7: called with an empty path, the config resolver returns the built-in
default plan unchanged, and that plan has exactly one core host, one apps
host, a non-dedicated apps pool, the default driver name and empty per-index
driver option overrides. -/
theorem configResolver_default :
    parseConfigFile defaultTsuruInstallConfig ConfigFile.empty
        = (ParseOut.ok defaultTsuruInstallConfig, defaultTsuruInstallConfig)
    ∧ defaultTsuruInstallConfig.CoreHosts = 1
    ∧ defaultTsuruInstallConfig.AppsHosts = 1
    ∧ defaultTsuruInstallConfig.DedicatedAppsHosts = false
    ∧ defaultTsuruInstallConfig.DriverName = defaultDriverName
    ∧ defaultTsuruInstallConfig.CoreDriversOpts = []
    ∧ defaultTsuruInstallConfig.AppsDriversOpts = [] :=
  ⟨rfl, rfl, rfl, rfl, rfl, rfl, rfl⟩

/-- C8: resolving a document that contains only hosts:core:size = 3 yields a
plan that differs from the default plan in the CoreHosts field alone. -/
theorem configResolver_core_size_only :
    parseConfigFile defaultTsuruInstallConfig (ConfigFile.doc docCore3)
      = (ParseOut.ok { defaultTsuruInstallConfig with CoreHosts := 3 },
         { defaultTsuruInstallConfig with CoreHosts := 3 }) := rfl

/-- C9 evidence: parseConfigFile aliases and mutates the shared package level
default configuration, so after a first resolution of a document setting
hosts:core:size to 3, a second call with an empty path no longer returns the
documented default plan: it reports three core hosts instead of one. -/
theorem configResolver_default_mutated :
    (parseConfigFile
        (parseConfigFile defaultTsuruInstallConfig (ConfigFile.doc docCore3)).2
        ConfigFile.empty).1
      = ParseOut.ok { defaultTsuruInstallConfig with CoreHosts := 3 }
    ∧ ({ defaultTsuruInstallConfig with CoreHosts := 3 } : TsuruInstallConfig).CoreHosts
        ≠ defaultTsuruInstallConfig.CoreHosts :=
  ⟨rfl, by decide⟩

end TsuruInstaller
